import Mathlib

/-!
Verification of the fm-cli local-first cache-and-synchronization core.

The Local Store (src/internal/storage/db.go) is a SQLite database; it is embedded
here as a record of tables, each table a list of rows in rowid order. The SQLite
statement INSERT OR REPLACE deletes the row carrying the conflicting primary key
and appends the fresh row, which is how `upsertBy` below is defined. DATETIME
values written by CURRENT_TIMESTAMP are modelled as Nat timestamps supplied
explicitly by the caller. The relevant dispatch decisions of the TUI Update
function (src/unnamed/part_002) and the page-fetch contract of the JMAP client
(src/internal/api/jmap.go) are embedded alongside.
-/

namespace FmCli

/-- model.Mailbox (src/internal/model/types.go). -/
structure Mailbox where
  ID : String
  Name : String
  UnreadCount : Int
  Role : String
  ParentID : String
  SortOrder : Int
  deriving Repr, DecidableEq

/-- model.Email (src/internal/model/types.go). -/
structure Email where
  ID : String
  Subject : String
  From : String
  To : String
  Cc : String
  Bcc : String
  ReplyTo : String
  Preview : String
  Date : String
  IsUnread : Bool
  IsFlagged : Bool
  IsDraft : Bool
  IsLocal : Bool
  ThreadID : String
  MailboxIDs : List String
  Body : String
  deriving Repr, DecidableEq

/-- One row of the `emails` table (schema in storage.DB.migrate,
src/internal/storage/db.go). The nullable TEXT columns `body_text` and `preview`
are read back through sql.NullString and are therefore Option String here. The
columns `body_html`, `keywords` and `updated_at` are never read by the
operations under verification and are omitted. -/
structure EmailRow where
  id : String
  threadId : String
  subject : String
  fromAddr : String
  toAddr : String
  ccAddr : String
  bccAddr : String
  replyTo : String
  preview : Option String
  bodyText : Option String
  date : String
  isUnread : Bool
  isFlagged : Bool
  isDraft : Bool
  mailboxIds : List String
  deriving Repr, DecidableEq

/-- storage.PendingAction (src/internal/storage/db.go). The `created_at` column
is filled by CURRENT_TIMESTAMP; it is modelled as a Nat timestamp passed to
`addPendingAction` by the caller. -/
structure PendingAction where
  id : Nat
  type : String
  emailID : String
  data : String
  createdAt : Nat
  deriving Repr, DecidableEq

/-- One row of the `local_drafts` table. -/
structure LocalDraft where
  id : String
  fromAddr : String
  toAddr : String
  subject : String
  body : String
  createdAt : Nat
  deriving Repr, DecidableEq

/-- The database state: the six tables created by storage.DB.migrate, each as a
list of rows in rowid order. `pendingNextId` is the AUTOINCREMENT counter of
`pending_actions.id` (SQLite starts it at 1). -/
structure DB where
  config : List (String × String)
  mailboxes : List Mailbox
  emails : List EmailRow
  emailMailboxes : List (String × String)
  pendingActions : List PendingAction
  pendingNextId : Nat
  localDrafts : List LocalDraft
  deriving Repr, DecidableEq

/-- A freshly migrated, empty database. -/
def emptyDB : DB :=
  { config := [], mailboxes := [], emails := [], emailMailboxes := []
    pendingActions := [], pendingNextId := 1, localDrafts := [] }

/-- INSERT OR REPLACE keyed by `key`: the stored row carrying the conflicting
key (unique, since `key` projects the primary key) is deleted and the new row is
appended with a fresh rowid at the end of scan order. -/
def upsertBy {α κ : Type} (key : α → κ) [DecidableEq κ] (l : List α) (x : α) : List α :=
  l.filter (fun y => decide (key y ≠ key x)) ++ [x]

/-- A sequence of INSERT OR REPLACE statements, one per element of `xs`. -/
def upsertFold {α κ : Type} (key : α → κ) [DecidableEq κ] (l : List α) (xs : List α) : List α :=
  xs.foldl (upsertBy key) l

/-- storage.DB.GetConfig: returns the value for the key, or the empty string
when no row exists (sql.ErrNoRows is mapped to ""). -/
def getConfig (st : DB) (key : String) : String :=
  (((st.config.find? (fun p => p.1 == key)).map Prod.snd).getD "")

/-- storage.DB.SetConfig: INSERT OR REPLACE into config. -/
def setConfig (st : DB) (key value : String) : DB :=
  { st with config := upsertBy Prod.fst st.config (key, value) }

/-- storage.DB.SaveMailboxes: one INSERT OR REPLACE per mailbox, keyed by id,
inside one transaction. -/
def saveMailboxes (st : DB) (mbs : List Mailbox) : DB :=
  { st with mailboxes := upsertFold Mailbox.ID st.mailboxes mbs }

/-- The ORDER BY (sort_order, name) key of storage.DB.GetMailboxes: ascending
sort order, ties broken by ascending name. -/
def mbLe (a b : Mailbox) : Prop :=
  a.SortOrder < b.SortOrder ∨ (a.SortOrder = b.SortOrder ∧ a.Name ≤ b.Name)

instance : DecidableRel mbLe := fun a b => by
  unfold mbLe; infer_instance

instance : IsTotal Mailbox mbLe where
  total a b := by
    rcases lt_trichotomy a.SortOrder b.SortOrder with h | h | h
    · exact Or.inl (Or.inl h)
    · rcases le_total a.Name b.Name with hn | hn
      · exact Or.inl (Or.inr ⟨h, hn⟩)
      · exact Or.inr (Or.inr ⟨h.symm, hn⟩)
    · exact Or.inr (Or.inl h)

instance : IsTrans Mailbox mbLe where
  trans a b c hab hbc := by
    rcases hab with h1 | ⟨h1, h1n⟩
    · rcases hbc with h2 | ⟨h2, _⟩
      · exact Or.inl (h1.trans h2)
      · exact Or.inl (h2 ▸ h1)
    · rcases hbc with h2 | ⟨h2, h2n⟩
      · exact Or.inl (h1 ▸ h2)
      · exact Or.inr ⟨h1.trans h2, h1n.trans h2n⟩

/-- storage.DB.GetMailboxes: all rows, ORDER BY sort_order, name. The SQL sort
is modelled by a stable insertion sort over scan (rowid) order. -/
def getMailboxes (st : DB) : List Mailbox :=
  st.mailboxes.insertionSort mbLe

/-- The `emails` row written for a model.Email by storage.DB.SaveEmails: every
column is bound from the email value (body_text from e.Body, mailbox_ids from
e.MailboxIDs; keywords and body_html are not written by this statement). -/
def rowOfEmail (e : Email) : EmailRow :=
  { id := e.ID, threadId := e.ThreadID, subject := e.Subject, fromAddr := e.From
    toAddr := e.To, ccAddr := e.Cc, bccAddr := e.Bcc, replyTo := e.ReplyTo
    preview := some e.Preview, bodyText := some e.Body, date := e.Date
    isUnread := e.IsUnread, isFlagged := e.IsFlagged, isDraft := e.IsDraft
    mailboxIds := e.MailboxIDs }

/-- The junction rows an email contributes: one (email_id, mailbox_id) pair per
member of MailboxIDs. -/
def junctionPairs (e : Email) : List (String × String) :=
  e.MailboxIDs.map (fun m => (e.ID, m))

/-- One iteration of the storage.DB.SaveEmails loop: INSERT OR REPLACE the email
row keyed by id, then INSERT OR REPLACE one junction row per mailbox id. No
junction row is ever deleted by this operation. -/
def saveEmailStep (st : DB) (e : Email) : DB :=
  { st with
    emails := upsertBy EmailRow.id st.emails (rowOfEmail e)
    emailMailboxes := upsertFold (fun p => p) st.emailMailboxes (junctionPairs e) }

/-- storage.DB.SaveEmails: the loop over the batch, inside one transaction. -/
def saveEmails (st : DB) (es : List Email) : DB :=
  es.foldl saveEmailStep st

/-- The ORDER BY e.date DESC key of storage.DB.GetEmails. The DATETIME column
holds TEXT values and SQLite compares them lexicographically. -/
def dateDesc (a b : EmailRow) : Prop :=
  b.date ≤ a.date

instance : DecidableRel dateDesc := fun a b => by
  unfold dateDesc; infer_instance

/-- The model.Email built by the storage.DB.GetEmails row scan: body_text is not
selected, so Body stays at its zero value; IsLocal is never set. -/
def emailOfRow (r : EmailRow) : Email :=
  { ID := r.id, Subject := r.subject, From := r.fromAddr, To := r.toAddr
    Cc := r.ccAddr, Bcc := r.bccAddr, ReplyTo := r.replyTo
    Preview := r.preview.getD "", Date := r.date, IsUnread := r.isUnread
    IsFlagged := r.isFlagged, IsDraft := r.isDraft, IsLocal := false
    ThreadID := r.threadId, MailboxIDs := r.mailboxIds, Body := "" }

/-- storage.DB.GetEmails: join emails with email_mailboxes on the mailbox id
(the junction primary key makes at most one matching junction row per email),
ORDER BY e.date DESC, LIMIT limit OFFSET offset. -/
def getEmails (st : DB) (mailboxID : String) (offset limit : Nat) : List Email :=
  (((((st.emails.filter
        (fun r => decide ((r.id, mailboxID) ∈ st.emailMailboxes))).insertionSort
          dateDesc).drop offset).take limit).map emailOfRow)

/-- The `body.Valid && body.String != ""` test applied to a sql.NullString. -/
def nullStringNonEmpty : Option String → Bool
  | some s => s != ""
  | none => false

/-- The degradation marker storage.DB.GetEmailBody prepends to a preview. -/
def previewDegradedMarker : String :=
  "[Full email body not cached - showing preview]"

/-- The sentinel storage.DB.GetEmailBody returns when neither body nor preview
is cached. -/
def bodyUnavailableSentinel : String :=
  "[Email body not available offline]"

/-- storage.DB.GetEmailBody: look the row up by id (none models the
sql.ErrNoRows error); return the body when non-empty, else the marked preview
when non-empty, else the fixed sentinel. -/
def getEmailBody (st : DB) (emailID : String) : Option String :=
  (st.emails.find? (fun r => r.id == emailID)).map (fun r =>
    if nullStringNonEmpty r.bodyText then r.bodyText.getD ""
    else if nullStringNonEmpty r.preview then
      previewDegradedMarker ++ "\n\n" ++ r.preview.getD ""
    else bodyUnavailableSentinel)

/-- storage.DB.SaveEmailBody: UPDATE emails SET body_text WHERE id. -/
def saveEmailBody (st : DB) (emailID body : String) : DB :=
  { st with emails := st.emails.map (fun r =>
      if r.id = emailID then { r with bodyText := some body } else r) }

/-- storage.DB.AddPendingAction: INSERT into pending_actions; the id comes from
AUTOINCREMENT and created_at from CURRENT_TIMESTAMP, modelled by the explicit
`now` argument. -/
def addPendingAction (st : DB) (actionType emailID data : String) (now : Nat) : DB :=
  { st with
    pendingActions := st.pendingActions ++
      [{ id := st.pendingNextId, type := actionType, emailID := emailID
         data := data, createdAt := now }]
    pendingNextId := st.pendingNextId + 1 }

/-- The ORDER BY created_at ASC key of storage.DB.GetPendingActions. -/
def paLe (a b : PendingAction) : Prop :=
  a.createdAt ≤ b.createdAt

instance : DecidableRel paLe := fun a b => by
  unfold paLe; infer_instance

/-- storage.DB.GetPendingActions: all rows, ORDER BY created_at ASC, modelled by
a stable insertion sort over rowid order. -/
def getPendingActions (st : DB) : List PendingAction :=
  st.pendingActions.insertionSort paLe

/-- storage.DB.RemovePendingAction: DELETE FROM pending_actions WHERE id. -/
def removePendingAction (st : DB) (id : Nat) : DB :=
  { st with pendingActions := st.pendingActions.filter (fun a => decide (a.id ≠ id)) }

/-- storage.DB.SaveLocalDraft: INSERT OR REPLACE into local_drafts. -/
def saveLocalDraft (st : DB) (id fromAddr toAddr subject body : String) (now : Nat) : DB :=
  { st with
    localDrafts := upsertBy LocalDraft.id st.localDrafts
      ({ id := id, fromAddr := fromAddr, toAddr := toAddr, subject := subject
         body := body, createdAt := now }) }

/-- storage.DB.DeleteLocalDraft: DELETE FROM local_drafts WHERE id. -/
def deleteLocalDraft (st : DB) (id : String) : DB :=
  { st with localDrafts := st.localDrafts.filter (fun d => decide (d.id ≠ id)) }

/-- storage.DB.MoveEmail: inside one transaction, DELETE the junction row
(email_id, from_mailbox_id), then INSERT OR REPLACE (email_id, to_mailbox_id).
The email row itself and every other table are untouched. -/
def moveEmail (st : DB) (emailID fromMailboxID toMailboxID : String) : DB :=
  { st with
    emailMailboxes :=
      upsertBy (fun p => p)
        (st.emailMailboxes.filter
          (fun p => decide (¬(p.1 = emailID ∧ p.2 = fromMailboxID))))
        (emailID, toMailboxID) }

/-- The fixed page size of Client.FetchEmails (src/internal/api/jmap.go,
`const limit = 20` inside FetchEmails; the same constant 20 appears at every
email-fetch call site of the TUI). -/
def fetchLimit : Nat := 20

/-- Client.FetchEmails (src/internal/api/jmap.go): one Email/query with the
mailbox filter, sorted receivedAt descending, Limit = fetchLimit and
Position = position, followed by Email/get on the returned ids. The remote
mailbox is modelled as its date-descending list of emails; the query answers
with the page of at most fetchLimit entries starting at `position`. -/
def fetchEmailsPage (server : List Email) (position : Nat) : List Email :=
  (server.drop position).take fetchLimit

/-- The emailsLoadedMsg branch of Update (src/unnamed/part_002): canLoadMore is
set to false when the loaded page has fewer than 20 emails and to true
otherwise. -/
def canLoadMoreAfter (newEmails : List Email) : Bool :=
  if newEmails.length < 20 then false else true

/-- The commands the TUI Update function (src/unnamed/part_002) can dispatch for
the read and write operations under verification. The Remote constructors stand
for the command closures that call a method on api.Client; the Offline
constructors stand for the closures that touch only storage.DB. -/
inductive Cmd where
  | fetchMailboxesRemote
  | fetchMailboxesOffline
  | fetchEmailsRemote
  | fetchEmailsOffline
  | fetchEmailBodyRemote
  | fetchEmailBodyOffline
  | deleteEmailRemote
  | moveEmailRemote
  | toggleUnreadRemote
  | toggleFlaggedRemote
  | sendEmailRemote
  | saveDraftRemote
  | saveDraftOffline
  deriving Repr, DecidableEq

/-- Whether the body of the command closure invokes the Remote Adapter (calls a
method on api.Client): read off the command constructors in
src/unnamed/part_002 (fetchMailboxesCmd, fetchEmailsCmd, fetchEmailBodyCmd,
deleteEmailCmd, moveEmailCmd, toggleUnreadCmd, toggleFlaggedCmd, sendEmailCmd,
saveDraftCmd all call the client; the Offline commands only touch storage.DB). -/
def Cmd.invokesRemote : Cmd → Bool
  | .fetchMailboxesRemote => true
  | .fetchEmailsRemote => true
  | .fetchEmailBodyRemote => true
  | .deleteEmailRemote => true
  | .moveEmailRemote => true
  | .toggleUnreadRemote => true
  | .toggleFlaggedRemote => true
  | .sendEmailRemote => true
  | .saveDraftRemote => true
  | .fetchMailboxesOffline => false
  | .fetchEmailsOffline => false
  | .fetchEmailBodyOffline => false
  | .saveDraftOffline => false

/-- Whether the body of the command closure appends a PendingAction: in
src/unnamed/part_002 only saveDraftOfflineCmd calls db.AddPendingAction; none
of the remote command closures does. -/
def Cmd.queuesPendingAction : Cmd → Bool
  | .saveDraftOffline => true
  | _ => false

/-- Whether the body of the command closure writes the mutation into the Local
Store: in src/unnamed/part_002 only saveDraftOfflineCmd calls a storage.DB
write (SaveLocalDraft); deleteEmailCmd, moveEmailCmd, toggleUnreadCmd,
toggleFlaggedCmd, sendEmailCmd and saveDraftCmd receive no db handle at all. -/
def Cmd.writesLocalStore : Cmd → Bool
  | .saveDraftOffline => true
  | _ => false

/-- Update, main-menu entry into Mail (src/unnamed/part_002, the enter/m
branches on viewMainMenu): the one read dispatch that checks offline mode,
choosing fetchMailboxesOfflineCmd when offline. -/
def dispatchMenuMail (offlineMode : Bool) : Cmd :=
  if offlineMode then .fetchMailboxesOffline else .fetchMailboxesRemote

/-- Update, enter on the mailbox list (src/unnamed/part_002 lines 2358 to 2366):
dispatches fetchEmailsCmd unconditionally; the source has no offline branch
here, although fetchEmailsOfflineCmd is defined. -/
def dispatchOpenMailbox (_offlineMode : Bool) : Cmd :=
  .fetchEmailsRemote

/-- Update, enter on the email list (src/unnamed/part_002 lines 2367 to 2372):
dispatches fetchEmailBodyCmd unconditionally; the source has no offline branch
here, although fetchEmailBodyOfflineCmd is defined. -/
def dispatchOpenEmail (_offlineMode : Bool) : Cmd :=
  .fetchEmailBodyRemote

/-- Update, key d or backspace on the email list (src/unnamed/part_002 lines
2028 to 2041): dispatches deleteEmailCmd unconditionally. -/
def dispatchDeleteKey (_offlineMode : Bool) : Cmd :=
  .deleteEmailRemote

/-- Update, key u on the email list (src/unnamed/part_002): dispatches
toggleUnreadCmd unconditionally. -/
def dispatchToggleUnreadKey (_offlineMode : Bool) : Cmd :=
  .toggleUnreadRemote

/-- Update, key f on the email list (src/unnamed/part_002): dispatches
toggleFlaggedCmd unconditionally. -/
def dispatchToggleFlaggedKey (_offlineMode : Bool) : Cmd :=
  .toggleFlaggedRemote

/-- Update, key e (archive) on the email list (src/unnamed/part_002):
dispatches moveEmailCmd unconditionally once an archive mailbox exists. -/
def dispatchArchiveKey (_offlineMode : Bool) : Cmd :=
  .moveEmailRemote

/-- Update, key y on the send-confirmation screen (src/unnamed/part_002):
dispatches sendEmailCmd unconditionally. -/
def dispatchSendKey (_offlineMode : Bool) : Cmd :=
  .sendEmailRemote

/-- Update, key s on the send-confirmation screen (src/unnamed/part_002):
dispatches saveDraftCmd unconditionally; saveDraftOfflineCmd is defined in the
source (lines 3219 to 3237) but no Update branch dispatches it. -/
def dispatchSaveDraftKey (_offlineMode : Bool) : Cmd :=
  .saveDraftRemote

/-- Modelled from the spec: the replay driver (ReplayPending, the sync command)
is code of this repository that is not under src/; only its Local Store callees
GetPendingActions and RemovePendingAction are. From section 4.2, Replay
protocol: load PendingActions in creation order; for each, invoke the matching
Remote Adapter call (abstracted by `exec`, true meaning the call was confirmed
successful); on success remove the action; on failure halt replay at the first
failing action, leaving it and all subsequent actions queued, and report which
action failed. The LocalDraft promotion performed on success of send or
save-draft actions touches only the drafts and emails tables and is not
modelled. -/
def replayGo (exec : PendingAction → Bool) : List PendingAction → DB → DB × Option PendingAction
  | [], st => (st, none)
  | a :: rest, st =>
      if exec a then replayGo exec rest (removePendingAction st a.id)
      else (st, some a)

/-- Modelled from the spec: the replay entry point, loading the queue through
GetPendingActions and walking it with `replayGo`. -/
def replayPending (st : DB) (exec : PendingAction → Bool) : DB × Option PendingAction :=
  replayGo exec (getPendingActions st) st

/-- A minimal email value for concrete test stores: only the fields the claims
inspect (id, date, mailbox memberships, preview, body) vary. -/
def testEmail (id date : String) (mbs : List String) : Email :=
  { ID := id, Subject := "", From := "", To := "", Cc := "", Bcc := ""
    ReplyTo := "", Preview := "", Date := date, IsUnread := false
    IsFlagged := false, IsDraft := false, IsLocal := false, ThreadID := ""
    MailboxIDs := mbs, Body := "" }

/-- A minimal mailbox value for concrete test stores. -/
def testMailbox (id name : String) (sortOrder : Int) : Mailbox :=
  { ID := id, Name := name, UnreadCount := 0, Role := "", ParentID := ""
    SortOrder := sortOrder }

/-- All junction pairs contributed by a batch, in write order. -/
def batchPairs : List Email → List (String × String)
  | [] => []
  | e :: es => junctionPairs e ++ batchPairs es

/-- The arguments of one AddPendingAction call (the Nat is the CURRENT_TIMESTAMP
value at the moment of the call). -/
structure PendingCall where
  actionType : String
  emailID : String
  data : String
  time : Nat
  deriving Repr, DecidableEq

/-- A sequence of AddPendingAction calls, applied in order. -/
def addPendingCalls (st : DB) (cs : List PendingCall) : DB :=
  cs.foldl (fun acc c => addPendingAction acc c.actionType c.emailID c.data c.time) st

/-- The rows those calls create, given the AUTOINCREMENT counter at the start. -/
def queuedFrom (n : Nat) : List PendingCall → List PendingAction
  | [] => []
  | c :: cs =>
      { id := n, type := c.actionType, emailID := c.emailID, data := c.data
        createdAt := c.time } :: queuedFrom (n + 1) cs

/-!  ## Helper lemmas about the generic upsert  -/

theorem mem_upsertBy_id {α : Type} [DecidableEq α] {l : List α} {x q : α} :
    q ∈ upsertBy (fun p => p) l x ↔ q = x ∨ q ∈ l := by
  simp only [upsertBy, List.mem_append, List.mem_filter, List.mem_singleton,
    decide_eq_true_eq]
  by_cases h : q = x
  · simp [h]
  · simp [h]

theorem mem_upsertFold_id {α : Type} [DecidableEq α] {xs : List α} :
    ∀ {l : List α} {q : α}, q ∈ upsertFold (fun p => p) l xs ↔ q ∈ l ∨ q ∈ xs := by
  induction xs with
  | nil => simp [upsertFold]
  | cons x xs ih =>
      intro l q
      have step : upsertFold (fun p => p) l (x :: xs)
          = upsertFold (fun p => p) (upsertBy (fun p => p) l x) xs := rfl
      rw [step, ih, mem_upsertBy_id]
      constructor
      · rintro ((h | h) | h)
        · exact Or.inr (by simp [h])
        · exact Or.inl h
        · exact Or.inr (List.mem_cons_of_mem x h)
      · rintro (h | h)
        · exact Or.inl (Or.inr h)
        · rcases List.mem_cons.mp h with h | h
          · exact Or.inl (Or.inl h)
          · exact Or.inr h

theorem upsertFold_append {α κ : Type} (key : α → κ) [DecidableEq κ]
    (l xs ys : List α) :
    upsertFold key l (xs ++ ys) = upsertFold key (upsertFold key l xs) ys := by
  simp [upsertFold, List.foldl_append]

theorem upsertFold_eq_filter_append {α κ : Type} (key : α → κ) [DecidableEq κ] :
    ∀ (xs l : List α),
      upsertFold key l xs =
        l.filter (fun y => decide (key y ∉ xs.map key)) ++ upsertFold key [] xs := by
  intro xs
  induction xs with
  | nil =>
      intro l
      simp [upsertFold]
  | cons x xs ih =>
      intro l
      have step : ∀ m : List α, upsertFold key m (x :: xs)
          = upsertFold key (upsertBy key m x) xs := fun _ => rfl
      have hsingle : upsertBy key ([] : List α) x = [x] := by
        simp [upsertBy]
      have hfilter : (upsertBy key l x).filter (fun y => decide (key y ∉ xs.map key))
          = l.filter (fun y => decide (key y ∉ (x :: xs).map key))
            ++ [x].filter (fun y => decide (key y ∉ xs.map key)) := by
        simp only [upsertBy, List.filter_append, List.filter_filter]
        congr 1
        apply List.filter_congr
        intro y _
        simp only [List.map_cons, List.mem_cons, decide_not, Bool.and_comm]
        by_cases h1 : key y = key x
        · simp [h1]
        · by_cases h2 : key y ∈ xs.map key <;> simp [h1, h2]
      rw [step l, ih (upsertBy key l x), step ([] : List α), hsingle, ih [x],
        hfilter, List.append_assoc]

theorem mem_upsertFold_key {α κ : Type} (key : α → κ) [DecidableEq κ] :
    ∀ {xs l : List α} {y : α}, y ∈ upsertFold key l xs → y ∈ l ∨ key y ∈ xs.map key := by
  intro xs
  induction xs with
  | nil =>
      intro l y h
      exact Or.inl h
  | cons x xs ih =>
      intro l y h
      have step : upsertFold key l (x :: xs)
          = upsertFold key (upsertBy key l x) xs := rfl
      rw [step] at h
      rcases ih h with h1 | h1
      · simp only [upsertBy, List.mem_append, List.mem_filter,
          List.mem_singleton] at h1
        rcases h1 with ⟨hy, _⟩ | hy
        · exact Or.inl hy
        · subst hy
          exact Or.inr (by simp)
      · exact Or.inr (by simp [h1])

theorem upsertFold_idem {α κ : Type} (key : α → κ) [DecidableEq κ]
    (l xs : List α) :
    upsertFold key (upsertFold key l xs) xs = upsertFold key l xs := by
  rw [upsertFold_eq_filter_append key xs (upsertFold key l xs),
    upsertFold_eq_filter_append key xs l]
  congr 1
  rw [List.filter_append, List.filter_filter]
  have h2 : (upsertFold key ([] : List α) xs).filter
      (fun y => decide (key y ∉ xs.map key)) = [] := by
    apply List.filter_eq_nil_iff.mpr
    intro y hy
    rcases mem_upsertFold_key key hy with h | h
    · simp at h
    · simp [h]
  rw [h2, List.append_nil]
  apply List.filter_congr
  intro y _
  by_cases h : key y ∈ xs.map key <;> simp [h]

theorem nodup_keys_upsertBy {α κ : Type} (key : α → κ) [DecidableEq κ]
    {l : List α} (x : α) (h : (l.map key).Nodup) :
    ((upsertBy key l x).map key).Nodup := by
  simp only [upsertBy, List.map_append, List.map_cons, List.map_nil]
  apply List.Nodup.append
  · exact h.sublist ((l.filter_sublist).map key)
  · exact List.nodup_singleton _
  · intro k hk1 hk2
    simp only [List.mem_map, List.mem_filter, decide_eq_true_eq] at hk1
    simp only [List.mem_singleton] at hk2
    rcases hk1 with ⟨y, ⟨_, hy⟩, hky⟩
    exact hy (hky.trans hk2)

theorem nodup_keys_upsertFold {α κ : Type} (key : α → κ) [DecidableEq κ] :
    ∀ (xs l : List α), (l.map key).Nodup → ((upsertFold key l xs).map key).Nodup := by
  intro xs
  induction xs with
  | nil =>
      intro l h
      exact h
  | cons x xs ih =>
      intro l h
      exact ih _ (nodup_keys_upsertBy key x h)

theorem upsertFold_of_fresh_keys {α κ : Type} (key : α → κ) [DecidableEq κ] :
    ∀ (xs l : List α), (xs.map key).Nodup →
      (∀ y ∈ l, key y ∉ xs.map key) →
      upsertFold key l xs = l ++ xs := by
  intro xs
  induction xs with
  | nil =>
      intro l _ _
      simp [upsertFold]
  | cons x xs ih =>
      intro l hnd hdis
      have step : upsertFold key l (x :: xs)
          = upsertFold key (upsertBy key l x) xs := rfl
      have hx : upsertBy key l x = l ++ [x] := by
        unfold upsertBy
        congr 1
        apply List.filter_eq_self.mpr
        intro y hy
        simp only [decide_eq_true_eq]
        intro hk
        exact hdis y hy (by simp [hk])
      rw [step, hx, ih (l ++ [x]) (by simpa using hnd.of_cons)]
      · simp
      · intro y hy
        rcases List.mem_append.mp hy with h | h
        · intro hk
          exact hdis y h (by simp [hk])
        · intro hk
          simp only [List.mem_singleton] at h
          subst h
          simp only [List.map_cons, List.nodup_cons] at hnd
          exact hnd.1 hk

/-!  ## Characterizations of the Local Store operations  -/

theorem saveEmails_eq (st : DB) (es : List Email) :
    saveEmails st es =
      { st with
        emails := upsertFold EmailRow.id st.emails (es.map rowOfEmail)
        emailMailboxes :=
          upsertFold (fun p => p) st.emailMailboxes (batchPairs es) } := by
  induction es generalizing st with
  | nil => rfl
  | cons e es ih =>
      have step : saveEmails st (e :: es) = saveEmails (saveEmailStep st e) es := rfl
      rw [step, ih]
      simp only [saveEmailStep, List.map_cons, batchPairs, upsertFold_append]
      rfl

theorem mem_getEmails_iff (st : DB) (mb eid : String) (limit : Nat)
    (hlim : st.emails.length ≤ limit) :
    eid ∈ (getEmails st mb 0 limit).map Email.ID ↔
      ((eid, mb) ∈ st.emailMailboxes ∧ ∃ r ∈ st.emails, r.id = eid) := by
  unfold getEmails
  rw [List.drop_zero]
  have hlen : ((st.emails.filter
      (fun r => decide ((r.id, mb) ∈ st.emailMailboxes))).insertionSort
        dateDesc).length ≤ limit := by
    rw [List.length_insertionSort]
    exact le_trans (List.length_filter_le _ _) hlim
  rw [List.take_of_length_le hlen, List.map_map]
  constructor
  · intro h
    rcases List.mem_map.mp h with ⟨r, hr, hid⟩
    have hrid : r.id = eid := hid
    have hr2 := (List.mem_insertionSort dateDesc).mp hr
    rcases List.mem_filter.mp hr2 with ⟨hrm, hcond⟩
    have hpair : (r.id, mb) ∈ st.emailMailboxes := of_decide_eq_true hcond
    exact ⟨hrid ▸ hpair, r, hrm, hrid⟩
  · rintro ⟨hpair, r, hrm, hrid⟩
    apply List.mem_map.mpr
    refine ⟨r, ?_, hrid⟩
    apply (List.mem_insertionSort dateDesc).mpr
    apply List.mem_filter.mpr
    exact ⟨hrm, decide_eq_true (hrid ▸ hpair)⟩

theorem addPendingCalls_eq (cs : List PendingCall) :
    ∀ st : DB,
      (addPendingCalls st cs).pendingActions
          = st.pendingActions ++ queuedFrom st.pendingNextId cs ∧
      (addPendingCalls st cs).pendingNextId = st.pendingNextId + cs.length := by
  induction cs with
  | nil =>
      intro st
      simp [addPendingCalls, queuedFrom]
  | cons c cs ih =>
      intro st
      have step : addPendingCalls st (c :: cs)
          = addPendingCalls (addPendingAction st c.actionType c.emailID c.data c.time) cs := rfl
      rw [step]
      rcases ih (addPendingAction st c.actionType c.emailID c.data c.time) with ⟨h1, h2⟩
      constructor
      · rw [h1]
        simp [addPendingAction, queuedFrom]
      · rw [h2]
        simp [addPendingAction]
        omega

theorem queuedFrom_map_createdAt :
    ∀ (cs : List PendingCall) (n : Nat),
      (queuedFrom n cs).map PendingAction.createdAt = cs.map PendingCall.time := by
  intro cs
  induction cs with
  | nil => intro n; rfl
  | cons c cs ih =>
      intro n
      simp [queuedFrom, ih]

theorem queuedFrom_payloads :
    ∀ (cs : List PendingCall) (n : Nat),
      (queuedFrom n cs).map
        (fun a => PendingCall.mk a.type a.emailID a.data a.createdAt) = cs := by
  intro cs
  induction cs with
  | nil => intro n; rfl
  | cons c cs ih =>
      intro n
      simp [queuedFrom, ih]

theorem sorted_paLe_of_times {l : List PendingAction}
    (h : List.Sorted (· ≤ ·) (l.map PendingAction.createdAt)) :
    List.Sorted paLe l := by
  rw [List.Sorted, List.pairwise_map] at h
  exact h

theorem replayGo_halt (exec : PendingAction → Bool) :
    ∀ (l : List PendingAction) (st : DB),
      st.pendingActions = l →
      (l.map PendingAction.id).Nodup →
      (replayGo exec l st).1.pendingActions = l.dropWhile exec ∧
      (replayGo exec l st).2 = (l.dropWhile exec).head? := by
  intro l
  induction l with
  | nil =>
      intro st h _
      simp [replayGo, h]
  | cons a rest ih =>
      intro st h hnd
      simp only [List.map_cons, List.nodup_cons] at hnd
      by_cases he : exec a = true
      · have hrm : (removePendingAction st a.id).pendingActions = rest := by
          rw [removePendingAction, h, List.filter_cons, if_neg (by simp)]
          apply List.filter_eq_self.mpr
          intro b hb
          simp only [decide_eq_true_eq]
          intro hid
          exact hnd.1 (hid ▸ List.mem_map_of_mem PendingAction.id hb)
        have hrec := ih (removePendingAction st a.id) hrm hnd.2
        rw [replayGo, if_pos he, List.dropWhile_cons, if_pos he]
        exact hrec
      · rw [replayGo, if_neg he, List.dropWhile_cons, if_neg he]
        exact ⟨h, rfl⟩

/-!  ## Claim theorems  -/

/-- Claim C1, counterexample: SaveEmails does not replace the membership rows.
Saving email e1 with membership set [m1] and then saving it again with the
narrower set [m2] leaves the old (e1, m1) junction row in place, so GetEmails
still returns e1 for mailbox m1 even though the most recent save listed only
m2 — refuting the replace-not-merge claim at this concrete input. -/
theorem C1_membership_replace_counterexample :
    "e1" ∈ ((getEmails
        (saveEmails (saveEmails emptyDB [testEmail "e1" "2024-01-01" ["m1"]])
          [testEmail "e1" "2024-01-01" ["m2"]])
        "m1" 0 20).map Email.ID) ∧
    ("e1", "m1") ∈ (saveEmails (saveEmails emptyDB [testEmail "e1" "2024-01-01" ["m1"]])
        [testEmail "e1" "2024-01-01" ["m2"]]).emailMailboxes ∧
    ("e1", "m2") ∈ (saveEmails (saveEmails emptyDB [testEmail "e1" "2024-01-01" ["m1"]])
        [testEmail "e1" "2024-01-01" ["m2"]]).emailMailboxes := by
  decide

/-- Claim C1, amended: SaveEmails upserts each email row by id and merges
(upserts) the supplied membership pairs into the junction table, deleting
nothing: after a save, the junction table holds exactly the union of the
previous pairs and the pairs of the batch, and GetEmails (with offset 0 and a
limit covering the table) returns an email id for a mailbox exactly when that
junction pair is present and an email row with that id exists — so a later
save with a narrower membership set does not drop earlier memberships. -/
theorem C1_membership_merge (st : DB) (es : List Email) (mb eid : String)
    (limit : Nat) (hlim : (saveEmails st es).emails.length ≤ limit) :
    (∀ p : String × String,
        p ∈ (saveEmails st es).emailMailboxes ↔
          p ∈ st.emailMailboxes ∨ p ∈ batchPairs es) ∧
    (eid ∈ ((getEmails (saveEmails st es) mb 0 limit).map Email.ID) ↔
      ((eid, mb) ∈ (saveEmails st es).emailMailboxes ∧
        ∃ r ∈ (saveEmails st es).emails, r.id = eid)) := by
  constructor
  · intro p
    rw [saveEmails_eq]
    exact mem_upsertFold_id
  · exact mem_getEmails_iff (saveEmails st es) mb eid limit hlim

/-- Witness for C1_membership_merge at the counterexample store: after the
narrower second save, the junction table holds both pairs and GetEmails m1
still lists e1. -/
theorem C1_membership_merge_witness :
    (("e1", "m1") ∈ (saveEmails (saveEmails emptyDB [testEmail "e1" "2024-01-01" ["m1"]])
        [testEmail "e1" "2024-01-01" ["m2"]]).emailMailboxes ↔
      ("e1", "m1") ∈ (saveEmails emptyDB [testEmail "e1" "2024-01-01" ["m1"]]).emailMailboxes ∨
      ("e1", "m1") ∈ batchPairs [testEmail "e1" "2024-01-01" ["m2"]]) ∧
    ("e1" ∈ ((getEmails
        (saveEmails (saveEmails emptyDB [testEmail "e1" "2024-01-01" ["m1"]])
          [testEmail "e1" "2024-01-01" ["m2"]]) "m1" 0 20).map Email.ID) ↔
      (("e1", "m1") ∈ (saveEmails (saveEmails emptyDB [testEmail "e1" "2024-01-01" ["m1"]])
          [testEmail "e1" "2024-01-01" ["m2"]]).emailMailboxes ∧
        ∃ r ∈ (saveEmails (saveEmails emptyDB [testEmail "e1" "2024-01-01" ["m1"]])
            [testEmail "e1" "2024-01-01" ["m2"]]).emails, r.id = "e1")) := by
  have h := C1_membership_merge
    (saveEmails emptyDB [testEmail "e1" "2024-01-01" ["m1"]])
    [testEmail "e1" "2024-01-01" ["m2"]] "m1" "e1" 20 (by decide)
  exact ⟨h.1 ("e1", "m1"), h.2⟩

/-- Claim C8: SaveEmails is idempotent. Saving the same batch twice leaves the
database in exactly the state of saving it once, and (given the primary-key
uniqueness invariants on the incoming state) produces no duplicate email rows
and no duplicate junction rows. -/
theorem C8_saveEmails_idempotent (st : DB) (es : List Email)
    (h1 : (st.emails.map EmailRow.id).Nodup) (h2 : st.emailMailboxes.Nodup) :
    saveEmails (saveEmails st es) es = saveEmails st es ∧
    ((saveEmails st es).emails.map EmailRow.id).Nodup ∧
    (saveEmails st es).emailMailboxes.Nodup := by
  refine ⟨?_, ?_, ?_⟩
  · rw [saveEmails_eq st es, saveEmails_eq]
    simp [upsertFold_idem]
  · rw [saveEmails_eq]
    exact nodup_keys_upsertFold EmailRow.id (es.map rowOfEmail) st.emails h1
  · rw [saveEmails_eq]
    have h := nodup_keys_upsertFold (fun p : String × String => p)
      (batchPairs es) st.emailMailboxes (by simpa using h2)
    simpa using h

/-- Witness for C8_saveEmails_idempotent on a concrete two-email batch over the
empty store. -/
theorem C8_saveEmails_idempotent_witness :
    saveEmails (saveEmails emptyDB
        [testEmail "e1" "2024-01-02" ["m1"], testEmail "e2" "2024-01-01" ["m1", "m2"]])
      [testEmail "e1" "2024-01-02" ["m1"], testEmail "e2" "2024-01-01" ["m1", "m2"]] =
    saveEmails emptyDB
      [testEmail "e1" "2024-01-02" ["m1"], testEmail "e2" "2024-01-01" ["m1", "m2"]] :=
  (C8_saveEmails_idempotent emptyDB
    [testEmail "e1" "2024-01-02" ["m1"], testEmail "e2" "2024-01-01" ["m1", "m2"]]
    (by decide) (by decide)).1

/-- Claim C7: the SaveMailboxes / GetMailboxes round trip. Saving a batch of
mailboxes with pairwise distinct ids into a fresh store and reloading returns
exactly the saved rows (a permutation, every field intact since the rows are
the saved values themselves), ordered by the (sort order, name) key. -/
theorem C7_mailbox_roundtrip (mbs : List Mailbox)
    (h : (mbs.map Mailbox.ID).Nodup) :
    List.Perm (getMailboxes (saveMailboxes emptyDB mbs)) mbs ∧
    List.Sorted mbLe (getMailboxes (saveMailboxes emptyDB mbs)) := by
  have hsave : (saveMailboxes emptyDB mbs).mailboxes = mbs := by
    have hfresh := upsertFold_of_fresh_keys Mailbox.ID mbs
      ([] : List Mailbox) h (by simp)
    show upsertFold Mailbox.ID [] mbs = mbs
    simpa using hfresh
  constructor
  · rw [getMailboxes, hsave]
    exact List.perm_insertionSort mbLe mbs
  · rw [getMailboxes, hsave]
    exact List.sorted_insertionSort mbLe mbs

/-- Witness for C7_mailbox_roundtrip on a concrete store whose input order
disagrees with the (sort order, name) order. -/
theorem C7_mailbox_roundtrip_witness :
    List.Perm (getMailboxes (saveMailboxes emptyDB
        [testMailbox "m2" "Inbox" 1, testMailbox "m1" "Archive" 0]))
      [testMailbox "m2" "Inbox" 1, testMailbox "m1" "Archive" 0] ∧
    List.Sorted mbLe (getMailboxes (saveMailboxes emptyDB
        [testMailbox "m2" "Inbox" 1, testMailbox "m1" "Archive" 0])) :=
  C7_mailbox_roundtrip
    [testMailbox "m2" "Inbox" 1, testMailbox "m1" "Archive" 0] (by decide)

/-- Claim C9: the pending-action queue is FIFO by creation. Starting from an
empty queue, any sequence of AddPendingAction calls with nondecreasing
CURRENT_TIMESTAMP values makes GetPendingActions return exactly the created
rows in call order (with consecutive AUTOINCREMENT ids and the call payloads
intact); RemovePendingAction(id) keeps exactly the rows whose id differs; and
adding a single action and then removing it by its id leaves the queue empty. -/
theorem C9_pending_fifo (st : DB) (cs : List PendingCall)
    (h0 : st.pendingActions = [])
    (hmono : List.Sorted (· ≤ ·) (cs.map PendingCall.time)) :
    getPendingActions (addPendingCalls st cs) = queuedFrom st.pendingNextId cs ∧
    ((queuedFrom st.pendingNextId cs).map
        (fun a => PendingCall.mk a.type a.emailID a.data a.createdAt) = cs) ∧
    (∀ (st2 : DB) (i : Nat) (a : PendingAction),
        a ∈ (removePendingAction st2 i).pendingActions ↔
          a ∈ st2.pendingActions ∧ a.id ≠ i) ∧
    (∀ ty em da t,
        (removePendingAction (addPendingAction st ty em da t)
          st.pendingNextId).pendingActions = []) := by
  refine ⟨?_, queuedFrom_payloads cs st.pendingNextId, ?_, ?_⟩
  · have hq := (addPendingCalls_eq cs st).1
    rw [getPendingActions, hq, h0, List.nil_append]
    apply List.Sorted.insertionSort_eq
    apply sorted_paLe_of_times
    rw [queuedFrom_map_createdAt]
    exact hmono
  · intro st2 i a
    rw [removePendingAction]
    simp only [List.mem_filter, decide_eq_true_eq]
  · intro ty em da t
    rw [removePendingAction, addPendingAction]
    simp [h0]

/-- Witness for C9_pending_fifo: the spec scenario, one move action added at a
concrete timestamp and then removed by its id. -/
theorem C9_pending_fifo_witness :
    getPendingActions (addPendingCalls emptyDB [PendingCall.mk "move" "e1" "payload" 5])
        = queuedFrom emptyDB.pendingNextId [PendingCall.mk "move" "e1" "payload" 5] ∧
    (removePendingAction (addPendingAction emptyDB "move" "e1" "payload" 5)
        emptyDB.pendingNextId).pendingActions = [] := by
  have h := C9_pending_fifo emptyDB [PendingCall.mk "move" "e1" "payload" 5]
    rfl (by decide)
  exact ⟨h.1, h.2.2.2 "move" "e1" "payload" 5⟩

/-- Claim C2 (spec-modelled): replay walks the queue in creation order and
halts at the first failing action. Under the queue invariants produced by
AddPendingAction (rows sorted by creation timestamp, distinct ids), the queue
left behind by replayPending is exactly the suffix starting at the first
action `exec` fails on — every earlier action has been removed, the failing
action and all later ones remain untouched — and that failing action is the
one reported; no retry happens. -/
theorem C2_replay_halts_at_first_failure (st : DB) (exec : PendingAction → Bool)
    (hsort : List.Sorted paLe st.pendingActions)
    (hids : (st.pendingActions.map PendingAction.id).Nodup) :
    (replayPending st exec).1.pendingActions = st.pendingActions.dropWhile exec ∧
    (replayPending st exec).2 = (st.pendingActions.dropWhile exec).head? := by
  have hget : getPendingActions st = st.pendingActions :=
    List.Sorted.insertionSort_eq hsort
  rw [replayPending, hget]
  exact replayGo_halt exec st.pendingActions st rfl hids

/-- Witness for C2_replay_halts_at_first_failure: three queued actions where
the second fails; after replay the first is removed and the second and third
remain queued, the second being reported as the failure. -/
theorem C2_replay_witness :
    (replayPending
        { emptyDB with
          pendingActions :=
            [PendingAction.mk 1 "delete" "e1" "" 1,
             PendingAction.mk 2 "move" "e2" "" 2,
             PendingAction.mk 3 "delete" "e3" "" 3]
          pendingNextId := 4 }
        (fun a => decide (a.id ≠ 2))).1.pendingActions
      = [PendingAction.mk 2 "move" "e2" "" 2, PendingAction.mk 3 "delete" "e3" "" 3] ∧
    (replayPending
        { emptyDB with
          pendingActions :=
            [PendingAction.mk 1 "delete" "e1" "" 1,
             PendingAction.mk 2 "move" "e2" "" 2,
             PendingAction.mk 3 "delete" "e3" "" 3]
          pendingNextId := 4 }
        (fun a => decide (a.id ≠ 2))).2
      = some (PendingAction.mk 2 "move" "e2" "" 2) := by
  have h := C2_replay_halts_at_first_failure
    { emptyDB with
      pendingActions :=
        [PendingAction.mk 1 "delete" "e1" "" 1,
         PendingAction.mk 2 "move" "e2" "" 2,
         PendingAction.mk 3 "delete" "e3" "" 3]
      pendingNextId := 4 }
    (fun a => decide (a.id ≠ 2)) (by decide) (by decide)
  exact ⟨h.1.trans (by decide), h.2.trans (by decide)⟩

/-- Claim C6: GetEmailBody for a stored row returns the cached body when a
non-empty body is cached; with no cached body but a non-empty preview it
returns the preview prefixed by the degradation marker; with neither it
returns the fixed unavailable-offline sentinel. -/
theorem C6_body_fallback (st : DB) (eid : String) (r : EmailRow)
    (hfind : st.emails.find? (fun x => x.id == eid) = some r) :
    (nullStringNonEmpty r.bodyText = true →
      getEmailBody st eid = some (r.bodyText.getD "")) ∧
    (nullStringNonEmpty r.bodyText = false → nullStringNonEmpty r.preview = true →
      getEmailBody st eid
        = some (previewDegradedMarker ++ "\n\n" ++ r.preview.getD "")) ∧
    (nullStringNonEmpty r.bodyText = false → nullStringNonEmpty r.preview = false →
      getEmailBody st eid = some bodyUnavailableSentinel) := by
  unfold getEmailBody
  rw [hfind]
  refine ⟨?_, ?_, ?_⟩
  · intro h1
    simp [h1]
  · intro h1 h2
    simp [h1, h2]
  · intro h1 h2
    simp [h1, h2]

/-- Witness for C6_body_fallback at a store holding one row with a cached
preview but no cached body: the result is the marked preview. -/
theorem C6_body_fallback_witness :
    getEmailBody
        { emptyDB with
          emails := [EmailRow.mk "e1" "" "" "" "" "" "" "" (some "hello") (some "")
            "2024-01-01" false false false ["m1"]] }
        "e1"
      = some (previewDegradedMarker ++ "\n\n" ++ "hello") := by
  have h := C6_body_fallback
    { emptyDB with
      emails := [EmailRow.mk "e1" "" "" "" "" "" "" "" (some "hello") (some "")
        "2024-01-01" false false false ["m1"]] }
    "e1"
    (EmailRow.mk "e1" "" "" "" "" "" "" "" (some "hello") (some "")
      "2024-01-01" false false false ["m1"])
    (by rfl)
  exact h.2.1 (by decide) (by decide)

/-- Claim C5: FetchEmails always requests one page of the fixed size 20, and
the canLoadMore indicator computed from the returned page is true exactly for
a full page of 20 results and false for any shorter page — including a full
final page after which no further data exists. -/
theorem C5_page_size_heuristic (server : List Email) (pos : Nat) :
    fetchLimit = 20 ∧
    (fetchEmailsPage server pos).length ≤ 20 ∧
    (canLoadMoreAfter (fetchEmailsPage server pos) = true ↔
      (fetchEmailsPage server pos).length = 20) ∧
    (canLoadMoreAfter (fetchEmailsPage server pos) = false ↔
      (fetchEmailsPage server pos).length < 20) ∧
    (server.length = pos + 20 →
      canLoadMoreAfter (fetchEmailsPage server pos) = true ∧
      fetchEmailsPage server (pos + 20) = []) := by
  have hlen : (fetchEmailsPage server pos).length ≤ 20 := by
    rw [fetchEmailsPage]
    exact le_trans (List.length_take_le _ _) (le_refl 20)
  refine ⟨rfl, hlen, ?_, ?_, ?_⟩
  · constructor
    · intro htrue
      rw [canLoadMoreAfter] at htrue
      by_cases h : (fetchEmailsPage server pos).length < 20
      · rw [if_pos h] at htrue
        cases htrue
      · omega
    · intro h20
      rw [canLoadMoreAfter, if_neg (by omega)]
  · constructor
    · intro hfalse
      rw [canLoadMoreAfter] at hfalse
      by_cases h : (fetchEmailsPage server pos).length < 20
      · exact h
      · rw [if_neg h] at hfalse
        cases hfalse
    · intro h
      rw [canLoadMoreAfter, if_pos h]
  · intro hfull
    constructor
    · have hpage : (fetchEmailsPage server pos).length = 20 := by
        rw [fetchEmailsPage, List.length_take, List.length_drop, hfull]
        simp [fetchLimit]
      rw [canLoadMoreAfter, hpage]
      simp
    · rw [fetchEmailsPage, List.drop_eq_nil_of_le (by omega)]
      rfl

/-- Witness for C5_page_size_heuristic at the spec checkpoints: a 19-result
page reports no more data; a full 20-result page reports more data even though
the following page is empty; the 1-result page at offset 20 of a 21-email
mailbox reports no more data. -/
theorem C5_page_size_heuristic_witness :
    canLoadMoreAfter (fetchEmailsPage
        (List.replicate 19 (testEmail "e" "2024-01-01" [])) 0) = false ∧
    (canLoadMoreAfter (fetchEmailsPage
        (List.replicate 20 (testEmail "e" "2024-01-01" [])) 0) = true ∧
      fetchEmailsPage (List.replicate 20 (testEmail "e" "2024-01-01" [])) 20 = []) ∧
    canLoadMoreAfter (fetchEmailsPage
        (List.replicate 21 (testEmail "e" "2024-01-01" [])) 20) = false := by
  refine ⟨?_, ?_, ?_⟩
  · exact (C5_page_size_heuristic
      (List.replicate 19 (testEmail "e" "2024-01-01" [])) 0).2.2.2.1.mpr (by decide)
  · exact (C5_page_size_heuristic
      (List.replicate 20 (testEmail "e" "2024-01-01" [])) 0).2.2.2.2 (by decide)
  · exact (C5_page_size_heuristic
      (List.replicate 21 (testEmail "e" "2024-01-01" [])) 20).2.2.2.1.mpr (by decide)

/-- Claim C3, code evaluation at the failing input: with offline mode on, the
Update branches that open a mailbox (message list) and open an email (body
fetch) still dispatch the remote commands, which invoke the Remote Adapter;
only the mailbox-list entry honors offline mode. The offline fetch commands
exist in the source but are never dispatched. -/
theorem C3_offline_reads_hit_remote :
    dispatchOpenMailbox true = Cmd.fetchEmailsRemote ∧
    Cmd.invokesRemote (dispatchOpenMailbox true) = true ∧
    dispatchOpenMailbox true ≠ Cmd.fetchEmailsOffline ∧
    dispatchOpenEmail true = Cmd.fetchEmailBodyRemote ∧
    Cmd.invokesRemote (dispatchOpenEmail true) = true ∧
    dispatchOpenEmail true ≠ Cmd.fetchEmailBodyOffline ∧
    dispatchMenuMail true = Cmd.fetchMailboxesOffline ∧
    Cmd.invokesRemote (dispatchMenuMail true) = false := by
  decide

/-- Claim C4, code evaluation at the failing input: with offline mode on,
every mutating key (delete, archive/move, unread toggle, flag toggle, send,
save draft) dispatches the remote command; none of the dispatched commands
writes the Local Store or queues a PendingAction — the only command that does
both, saveDraftOfflineCmd, is never dispatched. -/
theorem C4_offline_mutations_not_queued :
    dispatchDeleteKey true = Cmd.deleteEmailRemote ∧
    dispatchArchiveKey true = Cmd.moveEmailRemote ∧
    dispatchToggleUnreadKey true = Cmd.toggleUnreadRemote ∧
    dispatchToggleFlaggedKey true = Cmd.toggleFlaggedRemote ∧
    dispatchSendKey true = Cmd.sendEmailRemote ∧
    dispatchSaveDraftKey true = Cmd.saveDraftRemote ∧
    Cmd.queuesPendingAction (dispatchDeleteKey true) = false ∧
    Cmd.writesLocalStore (dispatchDeleteKey true) = false ∧
    Cmd.queuesPendingAction (dispatchSaveDraftKey true) = false ∧
    Cmd.writesLocalStore (dispatchSaveDraftKey true) = false ∧
    Cmd.invokesRemote (dispatchDeleteKey true) = true ∧
    Cmd.queuesPendingAction Cmd.saveDraftOffline = true ∧
    Cmd.writesLocalStore Cmd.saveDraftOffline = true := by
  decide

/-- Claim C10, counterexample: moving an email with equal source and target
mailbox does not always leave its membership set unchanged — on a store where
the email is not a member of that mailbox, the move inserts the membership. -/
theorem C10_move_same_mailbox_counterexample :
    ("e1", "m1") ∈ (moveEmail emptyDB "e1" "m1" "m1").emailMailboxes ∧
    ("e1", "m1") ∉ emptyDB.emailMailboxes := by
  decide

/-- Claim C10, amended: MoveEmail touches only the junction table — every
other table and the counter are unchanged — and the junction table afterwards
holds a pair exactly when it is the inserted (emailId, toMailboxId) pair or it
was present before and is not the removed (emailId, fromMailboxId) pair;
consequently a move with fromMailboxId equal to toMailboxId leaves the
membership set unchanged provided the email was already a member of that
mailbox (otherwise the (emailId, toMailboxId) membership is added). -/
theorem C10_move_frame (st : DB) (e fromMB toMB : String) :
    ((moveEmail st e fromMB toMB).config = st.config ∧
     (moveEmail st e fromMB toMB).mailboxes = st.mailboxes ∧
     (moveEmail st e fromMB toMB).emails = st.emails ∧
     (moveEmail st e fromMB toMB).pendingActions = st.pendingActions ∧
     (moveEmail st e fromMB toMB).pendingNextId = st.pendingNextId ∧
     (moveEmail st e fromMB toMB).localDrafts = st.localDrafts) ∧
    (∀ p : String × String,
        p ∈ (moveEmail st e fromMB toMB).emailMailboxes ↔
          (p = (e, toMB) ∨
            (p ∈ st.emailMailboxes ∧ ¬(p.1 = e ∧ p.2 = fromMB)))) ∧
    ((e, toMB) ∈ (moveEmail st e fromMB toMB).emailMailboxes) ∧
    (fromMB ≠ toMB → ((e, fromMB) ∉ (moveEmail st e fromMB toMB).emailMailboxes)) ∧
    (fromMB = toMB → (e, fromMB) ∈ st.emailMailboxes →
      ∀ p : String × String,
        p ∈ (moveEmail st e fromMB toMB).emailMailboxes ↔ p ∈ st.emailMailboxes) := by
  have hmem : ∀ p : String × String,
      p ∈ (moveEmail st e fromMB toMB).emailMailboxes ↔
        (p = (e, toMB) ∨ (p ∈ st.emailMailboxes ∧ ¬(p.1 = e ∧ p.2 = fromMB))) := by
    intro p
    rw [moveEmail]
    show p ∈ upsertBy (fun q => q)
      (st.emailMailboxes.filter
        (fun q => decide (¬(q.1 = e ∧ q.2 = fromMB)))) (e, toMB) ↔ _
    rw [mem_upsertBy_id]
    simp only [List.mem_filter, decide_eq_true_eq]
  refine ⟨⟨rfl, rfl, rfl, rfl, rfl, rfl⟩, hmem, ?_, ?_, ?_⟩
  · exact (hmem (e, toMB)).mpr (Or.inl rfl)
  · intro hne hcontra
    rcases (hmem (e, fromMB)).mp hcontra with h | ⟨_, h⟩
    · rw [Prod.mk.injEq] at h
      exact hne h.2
    · exact h ⟨rfl, rfl⟩
  · intro heq hin p
    rw [hmem p]
    constructor
    · rintro (h | ⟨h, _⟩)
      · exact h ▸ (heq ▸ hin)
      · exact h
    · intro h
      by_cases hp : p.1 = e ∧ p.2 = fromMB
      · left
        rw [heq] at hp
        exact Prod.ext hp.1 hp.2
      · exact Or.inr ⟨h, hp⟩

/-- Witness for C10_move_frame: a same-mailbox move on a store where the email
is already a member leaves the membership set unchanged. -/
theorem C10_move_frame_witness :
    (∀ p : String × String,
        p ∈ (moveEmail { emptyDB with emailMailboxes := [("e1", "m1")] }
            "e1" "m1" "m1").emailMailboxes ↔
          p ∈ ({ emptyDB with
            emailMailboxes := [("e1", "m1")] } : DB).emailMailboxes) ∧
    (moveEmail { emptyDB with emailMailboxes := [("e1", "m1")] }
        "e1" "m1" "m1").emails
      = ({ emptyDB with emailMailboxes := [("e1", "m1")] } : DB).emails := by
  have h := C10_move_frame
    { emptyDB with emailMailboxes := [("e1", "m1")] } "e1" "m1" "m1"
  exact ⟨h.2.2.2.2 rfl (by decide), h.1.2.2.1⟩

end FmCli
